import Mathlib

/-!
Verification of the contacts/tasks service layer
(`src/services/contacts.ts`, `src/services/tasks.ts`).

The TypeScript services are shallowly embedded: the module-level caches and
JSON files become an explicit `Sys` record, the sources of randomness
(simulated transient failures, the random seed dataset, `Date.now()`) become
explicit parameters, and the JavaScript string/array operations used by the
code (`toLowerCase`, `includes`, `trim`, `slice`, `sort`, template padding,
`Number(...) || 0`) are modelled by executable Lean functions.
-/

namespace ContactTask

/-! ## JavaScript string primitives -/

/-- Model of `String.prototype.toLowerCase` (locale-naive, char by char). -/
def normalize (s : String) : String := String.mk (s.data.map Char.toLower)

/-- `needle.isPrefixOf hay`-based substring occurrence test. -/
def hasSub (needle : List Char) : List Char → Bool
  | [] => needle.isPrefixOf []
  | c :: t => needle.isPrefixOf (c :: t) || hasSub needle t

/-- Model of `hay.includes(sub)`. -/
def strIncludes (hay sub : String) : Bool := hasSub sub.data hay.data

/-- Whitespace predicate used by the `trim` model. -/
def ws (c : Char) : Bool := c.isWhitespace

/-- Drop leading and trailing whitespace from a char list. -/
def trimList (l : List Char) : List Char :=
  ((l.dropWhile ws).reverse.dropWhile ws).reverse

/-- Model of `String.prototype.trim`. -/
def jsTrim (s : String) : String := String.mk (trimList s.data)

theorem dropWhile_idem (p : α → Bool) : ∀ l : List α,
    (l.dropWhile p).dropWhile p = l.dropWhile p
  | [] => rfl
  | a :: t => by
    by_cases h : p a
    · simp [List.dropWhile_cons, h, dropWhile_idem p t]
    · simp [List.dropWhile_cons, h]

theorem dropWhile_head_not (p : α → Bool) : ∀ l : List α,
    l.dropWhile p = [] ∨ ∃ a t, l.dropWhile p = a :: t ∧ p a = false
  | [] => Or.inl rfl
  | a :: t => by
    by_cases h : p a
    · simpa [List.dropWhile_cons, h] using dropWhile_head_not p t
    · exact Or.inr ⟨a, t, by simp [List.dropWhile_cons, h], by simp [h]⟩

theorem dropWhile_of_head_false (p : α → Bool) (a : α) (t : List α) (h : p a = false) :
    (a :: t).dropWhile p = a :: t := by
  simp [List.dropWhile_cons, h]

/-- Trimming is idempotent. -/
theorem trimList_idem (l : List Char) : trimList (trimList l) = trimList l := by
  unfold trimList
  set m := l.dropWhile ws with hm
  set u := m.reverse.dropWhile ws with hu
  -- step 1: `u.reverse` has no leading whitespace, because it is a prefix of `m`
  have hpref : u.reverse <+: m := by
    have : u <:+ m.reverse := List.dropWhile_suffix ws
    have := List.reverse_prefix.mpr (by simpa using this)
    simpa using this
  have step1 : u.reverse.dropWhile ws = u.reverse := by
    rcases hu2 : u.reverse with _ | ⟨a, t⟩
    · simp
    · -- the head of `u.reverse` is the head of `m`, which is not whitespace
      rcases hpref with ⟨r, hr⟩
      rw [hu2] at hr
      rcases dropWhile_head_not ws l with hnil | ⟨b, tb, hb, hbws⟩
      · rw [← hm] at hnil; rw [hnil] at hr; simp at hr
      · rw [← hm] at hb
        rw [hb] at hr
        have ha : a = b := by
          have := congrArg (fun x => x.head?) hr
          simpa using this
        exact dropWhile_of_head_false ws a t (ha ▸ hbws)
  rw [step1]
  have : u.reverse.reverse.dropWhile ws = u := by
    rw [List.reverse_reverse, hu, dropWhile_idem]
  rw [this]

theorem jsTrim_idem (s : String) : jsTrim (jsTrim s) = jsTrim s := by
  simp [jsTrim, trimList_idem]

/-! ## Decimal rendering (`String(n)`) and parsing (`Number(s) || 0`) -/

/-- The decimal digit character for `d % 10` (as built by `'0' + d`). -/
def digitChar (d : Nat) : Char := Char.ofNat (48 + d % 10)

theorem digitChar_toNat (d : Nat) : (digitChar d).toNat = 48 + d % 10 := by
  have h : d % 10 < 10 := Nat.mod_lt _ (by norm_num)
  unfold digitChar
  interval_cases h : d % 10 <;> rfl

theorem digitChar_isDigit (d : Nat) : (digitChar d).isDigit = true := by
  have h : d % 10 < 10 := Nat.mod_lt _ (by norm_num)
  unfold digitChar
  interval_cases h : d % 10 <;> rfl

/-- Accumulate the decimal digits of `n` (most significant first) onto
`acc`; structural recursion on a fuel argument so the kernel can
evaluate it (any `fuel ≥ n` gives the digits of `n`). -/
def natDigitsCore : Nat → Nat → List Char → List Char
  | 0, _, acc => acc
  | fuel + 1, n, acc =>
    if n = 0 then acc else natDigitsCore fuel (n / 10) (digitChar n :: acc)

/-- Model of JavaScript `String(n)` for a natural number. -/
def jsNatToString (n : Nat) : String :=
  if n = 0 then "0" else String.mk (natDigitsCore n n [])

/-- Model of JavaScript `String(n)` for an integer. -/
def jsIntToString : Int → String
  | .ofNat n => jsNatToString n
  | .negSucc m => "-" ++ jsNatToString (m + 1)

/-- One step of decimal accumulation, as in folding `Number` digit parsing. -/
def decStep (a : Nat) (c : Char) : Nat := a * 10 + (c.toNat - 48)

/-- The numeric value of a list of decimal digit characters. -/
def decValue (l : List Char) : Nat := l.foldl decStep 0

/-- Model of `Number(s) || 0`: the decimal value for plain digit strings,
`0` for anything that does not parse. -/
def parseSuffix (s : String) : Nat :=
  if s.data.isEmpty then 0
  else if s.data.all Char.isDigit then decValue s.data else 0

/-- `10 ^ (number of decimal digits of n)`, following `natDigitsAux`. -/
def pow10 (n : Nat) : Nat :=
  if h : n = 0 then 1 else 10 * pow10 (n / 10)
  termination_by n
  decreasing_by exact Nat.div_lt_self (Nat.pos_of_ne_zero h) (by norm_num)

theorem natDigitsCore_foldl : ∀ (fuel n : Nat), n ≤ fuel → ∀ (acc : List Char) (a : Nat),
    (natDigitsCore fuel n acc).foldl decStep a = acc.foldl decStep (a * pow10 n + n)
  | 0, n, hn => by
    intro acc a
    have h0 : n = 0 := Nat.le_zero.mp hn
    subst h0
    simp [natDigitsCore, pow10]
  | fuel + 1, n, hn => by
    intro acc a
    by_cases h : n = 0
    · subst h; simp [natDigitsCore, pow10]
    · rw [natDigitsCore, if_neg h]
      have hfuel : n / 10 ≤ fuel :=
        Nat.le_of_lt_succ (Nat.lt_of_lt_of_le
          (Nat.div_lt_self (Nat.pos_of_ne_zero h) (by norm_num)) hn)
      rw [natDigitsCore_foldl fuel (n / 10) hfuel]
      have hstep : decStep (a * pow10 (n / 10) + n / 10) (digitChar n) = a * pow10 n + n := by
        rw [decStep, digitChar_toNat]
        have h10 : pow10 n = 10 * pow10 (n / 10) := by rw [pow10, dif_neg h]
        rw [h10]
        have hmul : a * (10 * pow10 (n / 10)) = a * pow10 (n / 10) * 10 := by ring
        rw [hmul]
        have h48 : 48 + n % 10 - 48 = n % 10 := by omega
        rw [h48]
        generalize a * pow10 (n / 10) = q
        omega
      simp [List.foldl_cons, hstep]

theorem natDigitsCore_digits : ∀ (fuel n : Nat) (acc : List Char),
    (∀ c ∈ acc, c.isDigit = true) → ∀ c ∈ natDigitsCore fuel n acc, c.isDigit = true
  | 0, _, _, hacc => hacc
  | fuel + 1, n, acc, hacc => by
    intro c hc
    by_cases h : n = 0
    · rw [natDigitsCore, if_pos h] at hc; exact hacc c hc
    · rw [natDigitsCore, if_neg h] at hc
      refine natDigitsCore_digits fuel (n / 10) _ ?_ c hc
      intro d hd
      rcases List.mem_cons.mp hd with h1 | h2
      · subst h1; exact digitChar_isDigit n
      · exact hacc d h2

theorem natDigitsCore_ne_nil_of_acc : ∀ (fuel n : Nat) (acc : List Char),
    acc ≠ [] → natDigitsCore fuel n acc ≠ []
  | 0, _, _, hacc => hacc
  | fuel + 1, n, acc, hacc => by
    by_cases h : n = 0
    · rw [natDigitsCore, if_pos h]; exact hacc
    · rw [natDigitsCore, if_neg h]
      exact natDigitsCore_ne_nil_of_acc fuel (n / 10) _ (by simp)

theorem jsNatToString_ne_nil (n : Nat) : (jsNatToString n).data ≠ [] := by
  by_cases h : n = 0
  · simp [jsNatToString, h]
  · rw [jsNatToString, if_neg h]
    show natDigitsCore n n [] ≠ []
    rcases Nat.exists_eq_succ_of_ne_zero h with ⟨m, hm⟩
    subst hm
    rw [natDigitsCore, if_neg h]
    exact natDigitsCore_ne_nil_of_acc _ _ _ (by simp)

theorem jsNatToString_digits (n : Nat) : ∀ c ∈ (jsNatToString n).data, c.isDigit = true := by
  by_cases h : n = 0
  · simp [jsNatToString, h]
  · rw [jsNatToString, if_neg h]
    exact natDigitsCore_digits n n [] (by simp)

theorem decValue_jsNatToString (n : Nat) : decValue (jsNatToString n).data = n := by
  by_cases h : n = 0
  · simp [jsNatToString, h, decValue]; rfl
  · rw [jsNatToString, if_neg h]
    show (natDigitsCore n n []).foldl decStep 0 = n
    rw [natDigitsCore_foldl n n le_rfl]
    simp

/-- Model of the `pad` helper: zero-left-pad `String(n)` to width `size`. -/
def padZ (size : Nat) (n : Nat) : String :=
  String.mk (List.replicate (size - (jsNatToString n).data.length) '0' ++ (jsNatToString n).data)

theorem foldl_decStep_replicate_zero : ∀ k,
    (List.replicate k '0').foldl decStep 0 = 0
  | 0 => rfl
  | k + 1 => by
    rw [List.replicate_succ, List.foldl_cons]
    have h : decStep 0 '0' = 0 := rfl
    rw [h]
    exact foldl_decStep_replicate_zero k

/-- Parsing a zero-padded decimal rendering recovers the number. -/
theorem parseSuffix_padZ (w n : Nat) : parseSuffix (padZ w n) = n := by
  have hnn : (jsNatToString n).data ≠ [] := jsNatToString_ne_nil n
  have hne : (List.replicate (w - (jsNatToString n).data.length) '0'
      ++ (jsNatToString n).data) ≠ [] := by
    intro h
    exact hnn (List.append_eq_nil.mp h).2
  have hdig : ∀ c ∈ (List.replicate (w - (jsNatToString n).data.length) '0'
      ++ (jsNatToString n).data), c.isDigit = true := by
    intro c hc
    rcases List.mem_append.mp hc with h1 | h2
    · have := List.eq_of_mem_replicate h1; subst this; rfl
    · exact jsNatToString_digits n c h2
  have hall : (List.replicate (w - (jsNatToString n).data.length) '0'
      ++ (jsNatToString n).data).all Char.isDigit = true := by
    rw [List.all_eq_true]
    exact fun c hc => hdig c hc
  rw [parseSuffix, padZ]
  simp only [List.isEmpty_iff]
  rw [if_neg hne, if_pos hall]
  rw [decValue, List.foldl_append]
  rw [foldl_decStep_replicate_zero]
  exact decValue_jsNatToString n

/-! ## The list-sort comparator -/

/-- A value read off a record field by the sort comparator: either a JS
number or (the string rendering of) anything else. -/
inductive SortVal
  | num (n : Int)
  | str (s : String)
deriving DecidableEq, Repr

/-- `String(v)` as applied by the comparator's non-numeric branch. -/
def jsStringOfVal : SortVal → String
  | .num n => jsIntToString n
  | .str s => s

/-- Code-point lexicographic comparison of char lists (the model of
`localeCompare`, which the spec declares locale-naive). -/
def lexCmp : List Char → List Char → Ordering
  | [], [] => .eq
  | [], _ :: _ => .lt
  | _ :: _, [] => .gt
  | a :: as, b :: bs =>
    if a < b then .lt else if b < a then .gt else lexCmp as bs

def ordToInt : Ordering → Int
  | .lt => -1
  | .eq => 0
  | .gt => 1

/-- The comparator body shared by `listContacts` and `listTasks`:
numbers by subtraction, anything else by string comparison. -/
def jsCompareVals : SortVal → SortVal → Int
  | .num a, .num b => a - b
  | v, w => ordToInt (lexCmp (jsStringOfVal v).data (jsStringOfVal w).data)

inductive SortOrder
  | asc
  | desc
deriving DecidableEq, Repr

/-- `sortOrder === 'asc' ? cmp : -cmp`. -/
def dirCmp (o : SortOrder) (c : Int) : Int :=
  match o with
  | .asc => c
  | .desc => -c

theorem lexCmp_swap : ∀ (l₁ l₂ : List Char), lexCmp l₂ l₁ = (lexCmp l₁ l₂).swap
  | [], [] => rfl
  | [], _ :: _ => rfl
  | _ :: _, [] => rfl
  | a :: as, b :: bs => by
    rcases lt_trichotomy a b with h | h | h
    · have h' : ¬ b < a := not_lt_of_gt h
      simp [lexCmp, h, h']
      rfl
    · subst h
      simp [lexCmp, lt_irrefl, lexCmp_swap as bs]
    · have h' : ¬ a < b := not_lt_of_gt h
      simp [lexCmp, h, h']
      rfl

/-- The comparator is sign-antisymmetric. -/
theorem jsCompareVals_antisymm (v w : SortVal) : jsCompareVals w v = -(jsCompareVals v w) := by
  cases v with
  | num a =>
    cases w with
    | num b => show b - a = -(a - b); ring
    | str t =>
      show ordToInt (lexCmp _ _) = -(ordToInt (lexCmp _ _))
      rw [lexCmp_swap]
      cases lexCmp (jsStringOfVal (.num a)).data (jsStringOfVal (.str t)).data <;> rfl
  | str s =>
    cases w with
    | num b =>
      show ordToInt (lexCmp _ _) = -(ordToInt (lexCmp _ _))
      rw [lexCmp_swap]
      cases lexCmp (jsStringOfVal (.str s)).data (jsStringOfVal (.num b)).data <;> rfl
    | str t =>
      show ordToInt (lexCmp _ _) = -(ordToInt (lexCmp _ _))
      rw [lexCmp_swap]
      cases lexCmp (jsStringOfVal (.str s)).data (jsStringOfVal (.str t)).data <;> rfl

/-! ## A stable insertion sort modelling `Array.prototype.sort` -/

/-- Insert `x` before the first element `y` with `le x y`. -/
def jsInsert (le : α → α → Bool) (x : α) : List α → List α
  | [] => [x]
  | y :: ys => if le x y then x :: y :: ys else y :: jsInsert le x ys

/-- Stable sort by the boolean relation `le` (adjacent-sorted for any
comparator whose `le` is total, which `Array.prototype.sort` guarantees
for consistent comparators). -/
def jsSortBy (le : α → α → Bool) : List α → List α
  | [] => []
  | x :: xs => jsInsert le x (jsSortBy le xs)

theorem mem_jsInsert (le : α → α → Bool) (x a : α) : ∀ (l : List α),
    a ∈ jsInsert le x l ↔ a = x ∨ a ∈ l
  | [] => by simp [jsInsert]
  | y :: ys => by
    by_cases h : le x y
    · simp [jsInsert, h]
    · simp only [jsInsert, if_neg h, List.mem_cons, mem_jsInsert le x a ys]
      tauto

theorem length_jsInsert (le : α → α → Bool) (x : α) : ∀ (l : List α),
    (jsInsert le x l).length = l.length + 1
  | [] => rfl
  | y :: ys => by
    by_cases h : le x y
    · simp [jsInsert, h]
    · simp [jsInsert, h, length_jsInsert le x ys]

theorem mem_jsSortBy (le : α → α → Bool) (a : α) : ∀ (l : List α),
    a ∈ jsSortBy le l ↔ a ∈ l
  | [] => Iff.rfl
  | x :: xs => by
    simp only [jsSortBy, mem_jsInsert, List.mem_cons, mem_jsSortBy le a xs]

theorem length_jsSortBy (le : α → α → Bool) : ∀ (l : List α),
    (jsSortBy le l).length = l.length
  | [] => rfl
  | x :: xs => by
    simp [jsSortBy, length_jsInsert, length_jsSortBy le xs]

theorem chain'_jsInsert (le : α → α → Bool)
    (htot : ∀ a b, le a b = true ∨ le b a = true) (x : α) :
    ∀ (l : List α), List.Chain' (fun a b => le a b = true) l →
      List.Chain' (fun a b => le a b = true) (jsInsert le x l)
  | [], _ => List.chain'_singleton x
  | y :: ys, h => by
    by_cases hxy : le x y
    · rw [jsInsert, if_pos hxy]
      exact List.Chain'.cons hxy h
    · rw [jsInsert, if_neg hxy]
      have hyx : le y x = true := by
        rcases htot x y with h1 | h1
        · exact absurd h1 hxy
        · exact h1
      have htail : List.Chain' (fun a b => le a b = true) (jsInsert le x ys) :=
        chain'_jsInsert le htot x ys h.tail
      cases ys with
      | nil => exact List.chain'_pair.mpr hyx
      | cons z zs =>
        by_cases hxz : le x z
        · rw [jsInsert, if_pos hxz] at htail ⊢
          exact List.Chain'.cons hyx htail
        · rw [jsInsert, if_neg hxz] at htail ⊢
          exact List.Chain'.cons (List.chain'_cons.mp h).1 htail

theorem chain'_jsSortBy (le : α → α → Bool)
    (htot : ∀ a b, le a b = true ∨ le b a = true) :
    ∀ (l : List α), List.Chain' (fun a b => le a b = true) (jsSortBy le l)
  | [] => List.chain'_nil
  | x :: xs => chain'_jsInsert le htot x (jsSortBy le xs) (chain'_jsSortBy le htot xs)

/-! ## Data model -/

/-- `Contact` record (`src/services/contacts.ts`). Timestamps are epoch
milliseconds, modelled as integers. -/
structure Contact where
  id : String
  firstName : String
  lastName : String
  email : String
  phone : String
  company : String
  city : String
  state : String
  tags : List String
  createdAt : Int
  lastActivityAt : Int
deriving DecidableEq, Repr

inductive Priority
  | low
  | medium
  | high
deriving DecidableEq, Repr

def priorityStr : Priority → String
  | .low => "low"
  | .medium => "medium"
  | .high => "high"

/-- `Task` record (`src/services/tasks.ts`). Optional fields are `Option`. -/
structure Task where
  id : String
  contactId : String
  title : String
  notes : Option String
  dueDate : Option Int
  completed : Bool
  priority : Priority
  createdAt : Int
  updatedAt : Int
deriving DecidableEq, Repr

/-- Sortable contact fields (`sortBy?: keyof Contact`). -/
inductive CField
  | id
  | firstName
  | lastName
  | email
  | phone
  | company
  | city
  | state
  | tags
  | createdAt
  | lastActivityAt
deriving DecidableEq, Repr

/-- Sortable task fields (`sortBy?: keyof Task`). -/
inductive TField
  | id
  | contactId
  | title
  | notes
  | dueDate
  | completed
  | priority
  | createdAt
  | updatedAt
deriving DecidableEq, Repr

/-- `String(array)` joins elements with `,` (used when sorting by `tags`). -/
def joinComma : List String → String
  | [] => ""
  | [s] => s
  | s :: r => s ++ "," ++ joinComma r

def contactSortVal : CField → Contact → SortVal
  | .id, c => .str c.id
  | .firstName, c => .str c.firstName
  | .lastName, c => .str c.lastName
  | .email, c => .str c.email
  | .phone, c => .str c.phone
  | .company, c => .str c.company
  | .city, c => .str c.city
  | .state, c => .str c.state
  | .tags, c => .str (joinComma c.tags)
  | .createdAt, c => .num c.createdAt
  | .lastActivityAt, c => .num c.lastActivityAt

def taskSortVal : TField → Task → SortVal
  | .id, t => .str t.id
  | .contactId, t => .str t.contactId
  | .title, t => .str t.title
  | .notes, t => match t.notes with
    | some n => .str n
    | none => .str "undefined"
  | .dueDate, t => match t.dueDate with
    | some d => .num d
    | none => .str "undefined"
  | .completed, t => .str (if t.completed then "true" else "false")
  | .priority, t => .str (priorityStr t.priority)
  | .createdAt, t => .num t.createdAt
  | .updatedAt, t => .num t.updatedAt

/-- The boolean relation the sort result is adjacent-ordered by:
the directed comparator is non-positive. -/
def contactLe (f : CField) (o : SortOrder) (a b : Contact) : Bool :=
  decide (dirCmp o (jsCompareVals (contactSortVal f a) (contactSortVal f b)) ≤ 0)

def taskLe (f : TField) (o : SortOrder) (a b : Task) : Bool :=
  decide (dirCmp o (jsCompareVals (taskSortVal f a) (taskSortVal f b)) ≤ 0)

theorem dirCmp_total (o : SortOrder) (v w : SortVal) :
    dirCmp o (jsCompareVals v w) ≤ 0 ∨ dirCmp o (jsCompareVals w v) ≤ 0 := by
  have h := jsCompareVals_antisymm v w
  cases o <;> simp [dirCmp] <;> omega

theorem contactLe_total (f : CField) (o : SortOrder) (a b : Contact) :
    contactLe f o a b = true ∨ contactLe f o b a = true := by
  have h := dirCmp_total o (contactSortVal f a) (contactSortVal f b)
  simp only [contactLe, decide_eq_true_eq]
  exact h

theorem taskLe_total (f : TField) (o : SortOrder) (a b : Task) :
    taskLe f o a b = true ∨ taskLe f o b a = true := by
  have h := dirCmp_total o (taskSortVal f a) (taskSortVal f b)
  simp only [taskLe, decide_eq_true_eq]
  exact h

/-! ## Query parameters and filtering -/

/-- `ListParams` for contacts, with the defaults applied by the
destructuring in `listContacts`. -/
structure CQuery where
  q : String := ""
  sortBy : CField := .lastActivityAt
  sortOrder : SortOrder := .desc
  page : Nat := 1
  pageSize : Nat := 50
deriving Repr

/-- `TaskListParams`, with the defaults applied in `listTasks`. -/
structure TQuery where
  contactId : Option String := none
  q : String := ""
  sortBy : TField := .updatedAt
  sortOrder : SortOrder := .desc
  page : Nat := 1
  pageSize : Nat := 50
  completed : Option Bool := none
deriving Repr

/-- Result shape `{data, total, page, pageSize, hasNext}`. -/
structure ListResult (α : Type) where
  data : List α
  total : Nat
  page : Nat
  pageSize : Nat
  hasNext : Bool
deriving Repr

/-- The contact filter predicate of `listContacts` (`qn` is the already
lowercased search text). -/
def contactMatches (qn : String) (c : Contact) : Bool :=
  if qn = "" then true
  else
    strIncludes (normalize (c.firstName ++ " " ++ c.lastName)) qn
    || strIncludes (normalize c.email) qn
    || strIncludes (normalize c.company) qn
    || strIncludes (normalize c.city) qn
    || strIncludes (normalize c.state) qn
    || c.tags.any (fun t => strIncludes (normalize t) qn)

/-- The task filter predicate of `listTasks`: structured filters first
(a falsy — empty — `contactId` disables that filter, as in the source's
`if (contactId && ...)`), then the text search. -/
def taskMatches (p : TQuery) (t : Task) : Bool :=
  let qn := normalize p.q
  (match p.contactId with
   | some cid => cid == "" || t.contactId == cid
   | none => true)
  && (match p.completed with
      | some b => t.completed == b
      | none => true)
  && (if qn = "" then true
      else
        strIncludes (normalize t.title) qn
        || (match t.notes with
            | some n => strIncludes (normalize n) qn
            | none => false))

/-! ## The filter → sort → paginate pipeline -/

/-- `listContacts` as a pure function of the collection snapshot and the
query (the success path after the simulated latency/failure). -/
def listContactsPure (snapshot : List Contact) (p : CQuery) : ListResult Contact :=
  let qn := normalize p.q
  let filtered := snapshot.filter (contactMatches qn)
  let sorted := jsSortBy (contactLe p.sortBy p.sortOrder) filtered
  let start := (p.page - 1) * p.pageSize
  { data := (sorted.drop start).take p.pageSize
    total := filtered.length
    page := p.page
    pageSize := p.pageSize
    hasNext := decide (start + p.pageSize < filtered.length) }

/-- `listTasks` as a pure function of the collection snapshot and the query. -/
def listTasksPure (snapshot : List Task) (p : TQuery) : ListResult Task :=
  let filtered := snapshot.filter (taskMatches p)
  let sorted := jsSortBy (taskLe p.sortBy p.sortOrder) filtered
  let start := (p.page - 1) * p.pageSize
  { data := (sorted.drop start).take p.pageSize
    total := filtered.length
    page := p.page
    pageSize := p.pageSize
    hasNext := decide (start + p.pageSize < filtered.length) }

/-! ## Claims about the pure list pipeline -/

/-- Claim C1: for every collection snapshot and query, every record in
`data` returned by `listContacts`/`listTasks` satisfies the filter
predicate (structured filters match, and a non-empty search text occurs
in one of the designated lowercased text fields), and `total` equals the
number of records of the snapshot satisfying that predicate. -/
theorem listFilterTotalCorrect (cs : List Contact) (p : CQuery) (ts : List Task) (tp : TQuery) :
    ((∀ c ∈ (listContactsPure cs p).data, contactMatches (normalize p.q) c = true) ∧
      (listContactsPure cs p).total = (cs.filter (contactMatches (normalize p.q))).length) ∧
    ((∀ t ∈ (listTasksPure ts tp).data, taskMatches tp t = true) ∧
      (listTasksPure ts tp).total = (ts.filter (taskMatches tp)).length) := by
  refine ⟨⟨?_, rfl⟩, ⟨?_, rfl⟩⟩
  · intro c hc
    simp only [listContactsPure] at hc
    have h1 : c ∈ jsSortBy (contactLe p.sortBy p.sortOrder)
        (cs.filter (contactMatches (normalize p.q))) :=
      List.drop_subset _ _ (List.take_subset _ _ hc)
    have h2 : c ∈ cs.filter (contactMatches (normalize p.q)) :=
      (mem_jsSortBy _ _ _).mp h1
    exact List.of_mem_filter h2
  · intro t ht
    simp only [listTasksPure] at ht
    have h1 : t ∈ jsSortBy (taskLe tp.sortBy tp.sortOrder) (ts.filter (taskMatches tp)) :=
      List.drop_subset _ _ (List.take_subset _ _ ht)
    have h2 : t ∈ ts.filter (taskMatches tp) := (mem_jsSortBy _ _ _).mp h1
    exact List.of_mem_filter h2

/-- A minimal contact used to instantiate universally quantified claims. -/
def cw : Contact :=
  { id := "C00001", firstName := "Ada", lastName := "Lovelace", email := "ada@x.com"
    phone := "", company := "", city := "", state := "", tags := []
    createdAt := 0, lastActivityAt := 0 }

/-- A minimal task used to instantiate universally quantified claims. -/
def tw : Task :=
  { id := "T00001", contactId := "C00001", title := "Call", notes := none
    dueDate := none, completed := false, priority := .medium
    createdAt := 0, updatedAt := 0 }

theorem listFilterTotalCorrect_witness :
    contactMatches (normalize "") cw = true ∧ taskMatches {} tw = true :=
  ⟨(listFilterTotalCorrect [cw] {} [tw] {}).1.1 cw (by decide),
   (listFilterTotalCorrect [cw] {} [tw] {}).2.1 tw (by decide)⟩

/-- Claim C2: for page ≥ 1 and pageSize ≥ 1 the returned page slice has
length `min pageSize (total - (page-1)*pageSize)` (truncated subtraction),
`hasNext` is exactly `start + pageSize < total`, and an out-of-range page
yields empty `data` with `hasNext = false` and the same `total`, not an
error. -/
theorem paginationCorrect (cs : List Contact) (p : CQuery) (ts : List Task) (tp : TQuery)
    (_hp : 1 ≤ p.page) (_hps : 1 ≤ p.pageSize) (_htp : 1 ≤ tp.page) (_htps : 1 ≤ tp.pageSize) :
    ((listContactsPure cs p).data.length
        = min p.pageSize ((listContactsPure cs p).total - (p.page - 1) * p.pageSize) ∧
      (listContactsPure cs p).hasNext
        = decide ((p.page - 1) * p.pageSize + p.pageSize < (listContactsPure cs p).total) ∧
      ((listContactsPure cs p).total ≤ (p.page - 1) * p.pageSize →
        (listContactsPure cs p).data = [] ∧ (listContactsPure cs p).hasNext = false)) ∧
    ((listTasksPure ts tp).data.length
        = min tp.pageSize ((listTasksPure ts tp).total - (tp.page - 1) * tp.pageSize) ∧
      (listTasksPure ts tp).hasNext
        = decide ((tp.page - 1) * tp.pageSize + tp.pageSize < (listTasksPure ts tp).total) ∧
      ((listTasksPure ts tp).total ≤ (tp.page - 1) * tp.pageSize →
        (listTasksPure ts tp).data = [] ∧ (listTasksPure ts tp).hasNext = false)) := by
  constructor
  · refine ⟨?_, rfl, ?_⟩
    · simp only [listContactsPure, List.length_take, List.length_drop, length_jsSortBy,
        List.length_filter_le, Nat.min_comm]
    · intro h
      simp only [listContactsPure] at h ⊢
      have hlen : (jsSortBy (contactLe p.sortBy p.sortOrder)
          (cs.filter (contactMatches (normalize p.q)))).length ≤ (p.page - 1) * p.pageSize := by
        rw [length_jsSortBy]; exact h
      rw [List.drop_eq_nil_of_le hlen]
      refine ⟨by simp, ?_⟩
      simp only [decide_eq_false_iff_not, not_lt]
      omega
  · refine ⟨?_, rfl, ?_⟩
    · simp only [listTasksPure, List.length_take, List.length_drop, length_jsSortBy,
        List.length_filter_le, Nat.min_comm]
    · intro h
      simp only [listTasksPure] at h ⊢
      have hlen : (jsSortBy (taskLe tp.sortBy tp.sortOrder)
          (ts.filter (taskMatches tp))).length ≤ (tp.page - 1) * tp.pageSize := by
        rw [length_jsSortBy]; exact h
      rw [List.drop_eq_nil_of_le hlen]
      refine ⟨by simp, ?_⟩
      simp only [decide_eq_false_iff_not, not_lt]
      omega

theorem paginationCorrect_witness :
    (listContactsPure [cw] {}).data.length
        = min (50 : Nat) ((listContactsPure [cw] {}).total - 0 * 50) ∧
    (listTasksPure [tw] {}).data.length
        = min (50 : Nat) ((listTasksPure [tw] {}).total - 0 * 50) :=
  ⟨(paginationCorrect [cw] {} [tw] {} (by decide) (by decide) (by decide) (by decide)).1.1,
   (paginationCorrect [cw] {} [tw] {} (by decide) (by decide) (by decide) (by decide)).2.1⟩

/-- Claim C8: every pair of adjacent records of the returned `data` is
ordered consistently with the declared comparator (numbers by
subtraction, everything else by lexicographic comparison of the string
rendering, negated for descending order). -/
theorem sortAdjacentOrdered (cs : List Contact) (p : CQuery) (ts : List Task) (tp : TQuery) :
    List.Chain' (fun a b => contactLe p.sortBy p.sortOrder a b = true)
      (listContactsPure cs p).data ∧
    List.Chain' (fun a b => taskLe tp.sortBy tp.sortOrder a b = true)
      (listTasksPure ts tp).data := by
  constructor
  · have h := chain'_jsSortBy (contactLe p.sortBy p.sortOrder)
      (contactLe_total p.sortBy p.sortOrder)
      (cs.filter (contactMatches (normalize p.q)))
    have h2 := (h.drop ((p.page - 1) * p.pageSize)).take p.pageSize
    simpa only [listContactsPure] using h2
  · have h := chain'_jsSortBy (taskLe tp.sortBy tp.sortOrder)
      (taskLe_total tp.sortBy tp.sortOrder)
      (ts.filter (taskMatches tp))
    have h2 := (h.drop ((tp.page - 1) * tp.pageSize)).take tp.pageSize
    simpa only [listTasksPure] using h2

/-! ## The stateful store model

Module caches (`CONTACTS_CACHE`, `TASKS_CACHE`) and the two JSON files
become one explicit record. `none` models a `null` cache or an absent
file. Randomness (the transient-failure rolls and the random contact
seed dataset) and `Date.now()` are explicit parameters; every operation
returns the post-state together with its `Except` outcome, since the
source mutates module state even on paths that then `throw`. -/

inductive Err
  | validation (msg : String)
  | notFound (msg : String)
  | transient (msg : String)
deriving DecidableEq, Repr

structure Sys where
  contactsCache : Option (List Contact)
  contactsDisk : Option (List Contact)
  tasksCache : Option (List Task)
  tasksDisk : Option (List Task)
deriving DecidableEq, Repr

/-- `ensureSeeded` of the contacts module: seed from disk when the file
holds a non-empty list, otherwise generate (`seed` stands for the random
`seedContacts()` result) and persist. -/
def ensureContactsSeeded (seed : List Contact) (s : Sys) : Sys :=
  match s.contactsCache with
  | some _ => s
  | none =>
    match s.contactsDisk with
    | some l =>
      if l.isEmpty then { s with contactsCache := some seed, contactsDisk := some seed }
      else { s with contactsCache := some l }
    | none => { s with contactsCache := some seed, contactsDisk := some seed }

/-- `ensureSeeded` of the tasks module: any persisted document (empty
included) is adopted; otherwise the deterministic `seedTasks(0) = []`
is installed and persisted. -/
def ensureTasksSeeded (s : Sys) : Sys :=
  match s.tasksCache with
  | some _ => s
  | none =>
    match s.tasksDisk with
    | some l => { s with tasksCache := some l }
    | none => { s with tasksCache := some [], tasksDisk := some [] }

/-- `String.prototype.slice(1)`, used to read the numeric id suffix. -/
def slice1 (s : String) : String := String.mk (s.data.drop 1)

/-- `reduce((m, c) => Math.max(m, Number(c.id.slice(1)) || 0), 0)`. -/
def maxSuffix (ids : List String) : Nat :=
  ids.foldl (fun m i => max m (parseSuffix (slice1 i))) 0

/-- `nextContactId` (`contacts.ts`): `C` + `pad(max + 1, 5)`. -/
def nextContactId (contacts : List Contact) : String :=
  "C" ++ padZ 5 (maxSuffix (contacts.map (·.id)) + 1)

/-- The id allocation inlined in `createTask`: `T` + `pad(max + 1)`. -/
def nextTaskId (tasks : List Task) : String :=
  "T" ++ padZ 5 (maxSuffix (tasks.map (·.id)) + 1)

structure ContactCreateInput where
  firstName : String
  lastName : String
  email : String
  phone : Option String := none
  company : Option String := none
  city : Option String := none
  state : Option String := none
  tags : Option (List String) := none
deriving Repr

structure TaskCreateInput where
  contactId : String
  title : String
  notes : Option String := none
  dueDate : Option Int := none
  priority : Option Priority := none
deriving Repr

structure TaskUpdateInput where
  title : Option String := none
  notes : Option String := none
  dueDate : Option Int := none
  completed : Option Bool := none
  priority : Option Priority := none
deriving Repr

/-- `getContact`: lazy seeding, the 5% transient roll (`gcFail`), then a
linear search; `NotFoundError` when no record has the id. -/
def getContact (gcFail : Bool) (seed : List Contact) (id : String) (s : Sys) :
    Sys × Except Err Contact :=
  let s0 := ensureContactsSeeded seed s
  if gcFail then (s0, .error (.transient "simulated network failure"))
  else
    match (s0.contactsCache.getD []).find? (fun c => c.id == id) with
    | none => (s0, .error (.notFound "contact not found"))
    | some c => (s0, .ok c)

/-- `createContact`: trim and require the three mandatory fields, reject a
case-insensitively duplicate email, then build the record and store it as
`[contact, ...cache]` (the new record is PREPENDED), persisting the list. -/
def createContact (seed : List Contact) (now : Int) (input : ContactCreateInput) (s : Sys) :
    Sys × Except Err Contact :=
  let s0 := ensureContactsSeeded seed s
  let firstName := jsTrim input.firstName
  let lastName := jsTrim input.lastName
  let email := jsTrim input.email
  if firstName == "" || lastName == "" || email == "" then
    (s0, .error (.validation "firstName, lastName, email required"))
  else if (s0.contactsCache.getD []).any (fun c => normalize c.email == normalize email) then
    (s0, .error (.validation "email already exists"))
  else
    let contact : Contact :=
      { id := nextContactId (s0.contactsCache.getD [])
        firstName := firstName
        lastName := lastName
        email := email
        phone := input.phone.getD ""
        company := input.company.getD ""
        city := input.city.getD ""
        state := input.state.getD ""
        tags := input.tags.getD []
        createdAt := now
        lastActivityAt := now }
    let cs := contact :: s0.contactsCache.getD []
    ({ s0 with contactsCache := some cs, contactsDisk := some cs }, .ok contact)

/-- `deleteContact`: remove the first contact with the id from the cache
and persist; then cascade by re-reading the TASK FILE (not the task
cache), filtering out tasks of the deleted contact, and rewriting the
file. The in-memory task cache is left untouched. -/
def deleteContact (seed : List Contact) (id : String) (s : Sys) : Sys × Except Err Bool :=
  let s0 := ensureContactsSeeded seed s
  let cs := s0.contactsCache.getD []
  if cs.any (fun c => c.id == id) then
    let cs' := cs.eraseP (fun c => c.id == id)
    let tasks := s0.tasksDisk.getD []
    let tasks' := tasks.filter (fun t => !(t.contactId == id))
    ({ s0 with
        contactsCache := some cs'
        contactsDisk := some cs'
        tasksDisk := some tasks' }, .ok true)
  else (s0, .error (.notFound "contact not found"))

/-- `listTasks` as a full store operation: lazy seeding, the 5% transient
roll, then the pure pipeline over the cache. -/
def listTasks (ltFail : Bool) (p : TQuery) (s : Sys) : Sys × Except Err (ListResult Task) :=
  let s0 := ensureTasksSeeded s
  if ltFail then (s0, .error (.transient "simulated network failure"))
  else (s0, .ok (listTasksPure (s0.tasksCache.getD []) p))

/-- `createTask`: any failure of the `getContact` probe (its transient
roll `gcFail` included) is converted to `ValidationError: contact does
not exist`; then title validation, then the 12% transient roll
(`mutFail`) BEFORE the mutation, then append (`push`) and persist. -/
def createTask (gcFail mutFail : Bool) (seed : List Contact) (now : Int)
    (input : TaskCreateInput) (s : Sys) : Sys × Except Err Task :=
  let s0 := ensureTasksSeeded s
  let s1 := ensureContactsSeeded seed s0
  if gcFail || ((s1.contactsCache.getD []).find? (fun c => c.id == input.contactId)).isNone then
    (s1, .error (.validation "contact does not exist"))
  else
    let title := jsTrim input.title
    if title == "" then (s1, .error (.validation "title required"))
    else if 120 < title.length then (s1, .error (.validation "title too long"))
    else if mutFail then (s1, .error (.transient "simulate mutation failure"))
    else
      let tasks := s1.tasksCache.getD []
      let task : Task :=
        { id := nextTaskId tasks
          contactId := input.contactId
          title := title
          notes := input.notes
          dueDate := input.dueDate
          completed := false
          priority := input.priority.getD .medium
          createdAt := now
          updatedAt := now }
      let tasks' := tasks ++ [task]
      ({ s1 with tasksCache := some tasks', tasksDisk := some tasks' }, .ok task)

/-- The partial-update merge of `updateTask`: a provided title is trimmed
and, when empty, silently replaced by the previous title; other provided
fields replace the stored value; `updatedAt` is restamped. -/
def updFields (now : Int) (u : TaskUpdateInput) (prev : Task) : Task :=
  { prev with
    title := match u.title with
      | some t => if jsTrim t == "" then prev.title else jsTrim t
      | none => prev.title
    notes := match u.notes with
      | some n => some n
      | none => prev.notes
    dueDate := match u.dueDate with
      | some d => some d
      | none => prev.dueDate
    completed := match u.completed with
      | some b => b
      | none => prev.completed
    priority := match u.priority with
      | some pr => pr
      | none => prev.priority
    updatedAt := now }

/-- Replace the first element satisfying `p` (models `list[idx] = next`
after `findIndex`). -/
def setFirst (p : α → Bool) (x : α) : List α → List α
  | [] => []
  | y :: ys => if p y then x :: ys else y :: setFirst p x ys

/-- `updateTask`: the 12% transient roll BEFORE anything else, then
`findIndex`; `NotFoundError` if absent, otherwise merge, store, persist. -/
def updateTask (mutFail : Bool) (now : Int) (id : String) (u : TaskUpdateInput) (s : Sys) :
    Sys × Except Err Task :=
  let s0 := ensureTasksSeeded s
  if mutFail then (s0, .error (.transient "simulate mutation failure"))
  else
    let tasks := s0.tasksCache.getD []
    match tasks.find? (fun t => t.id == id) with
    | none => (s0, .error (.notFound "task not found"))
    | some prev =>
      let next := updFields now u prev
      let tasks' := setFirst (fun t => t.id == id) next tasks
      ({ s0 with tasksCache := some tasks', tasksDisk := some tasks' }, .ok next)

/-- `deleteTask`: the 12% transient roll BEFORE the splice, then
`findIndex`; `NotFoundError` if absent, otherwise remove and persist. -/
def deleteTask (mutFail : Bool) (id : String) (s : Sys) : Sys × Except Err Bool :=
  let s0 := ensureTasksSeeded s
  if mutFail then (s0, .error (.transient "simulate mutation failure"))
  else
    let tasks := s0.tasksCache.getD []
    if tasks.any (fun t => t.id == id) then
      let tasks' := tasks.eraseP (fun t => t.id == id)
      ({ s0 with tasksCache := some tasks', tasksDisk := some tasks' }, .ok true)
    else (s0, .error (.notFound "task not found"))

/-! ## Helper lemmas about the store model -/

theorem ensureContactsSeeded_tasks (seed : List Contact) (s : Sys) :
    (ensureContactsSeeded seed s).tasksCache = s.tasksCache ∧
    (ensureContactsSeeded seed s).tasksDisk = s.tasksDisk := by
  rcases s with ⟨cc, cd, tc, td⟩
  cases cc with
  | some l => exact ⟨rfl, rfl⟩
  | none =>
    cases cd with
    | none => exact ⟨rfl, rfl⟩
    | some l2 =>
      by_cases h : l2.isEmpty
      · simp [ensureContactsSeeded, h]
      · simp [ensureContactsSeeded, h]

theorem ensureContactsSeeded_of_some (seed : List Contact) (s : Sys) (l : List Contact)
    (h : s.contactsCache = some l) : ensureContactsSeeded seed s = s := by
  rcases s with ⟨cc, cd, tc, td⟩
  dsimp only at h
  subst h
  rfl

theorem le_foldl_max (f : α → Nat) : ∀ (l : List α) (a : Nat),
    a ≤ l.foldl (fun m x => max m (f x)) a
  | [], _ => le_rfl
  | y :: ys, a =>
    le_trans (le_max_left a (f y)) (le_foldl_max f ys (max a (f y)))

theorem foldl_max_of_mem (f : α → Nat) : ∀ (l : List α) (a : Nat) (x : α), x ∈ l →
    f x ≤ l.foldl (fun m x => max m (f x)) a
  | y :: ys, a, x, hx => by
    rcases List.mem_cons.mp hx with h | h
    · subst h
      exact le_trans (le_max_right a (f x)) (le_foldl_max f ys (max a (f x)))
    · exact foldl_max_of_mem f ys (max a (f y)) x h

theorem maxSuffix_ge (ids : List String) (i : String) (h : i ∈ ids) :
    parseSuffix (slice1 i) ≤ maxSuffix ids := by
  rw [maxSuffix]
  exact foldl_max_of_mem (fun j => parseSuffix (slice1 j)) ids 0 i h

theorem slice1_C (t : String) : slice1 ("C" ++ t) = t := by
  rcases t with ⟨d⟩
  rfl

theorem slice1_T (t : String) : slice1 ("T" ++ t) = t := by
  rcases t with ⟨d⟩
  rfl

theorem nextContactId_suffix (l : List Contact) :
    parseSuffix (slice1 (nextContactId l)) = maxSuffix (l.map (·.id)) + 1 := by
  rw [nextContactId, slice1_C, parseSuffix_padZ]

theorem nextTaskId_suffix (l : List Task) :
    parseSuffix (slice1 (nextTaskId l)) = maxSuffix (l.map (·.id)) + 1 := by
  rw [nextTaskId, slice1_T, parseSuffix_padZ]

/-- The freshly allocated contact id collides with no stored id. -/
theorem nextContactId_fresh (l : List Contact) : ∀ c ∈ l, c.id ≠ nextContactId l := by
  intro c hc heq
  have h1 : parseSuffix (slice1 c.id) ≤ maxSuffix (l.map (·.id)) :=
    maxSuffix_ge _ _ (List.mem_map_of_mem _ hc)
  rw [heq, nextContactId_suffix] at h1
  omega

/-- The freshly allocated task id collides with no stored id. -/
theorem nextTaskId_fresh (l : List Task) : ∀ t ∈ l, t.id ≠ nextTaskId l := by
  intro t ht heq
  have h1 : parseSuffix (slice1 t.id) ≤ maxSuffix (l.map (·.id)) :=
    maxSuffix_ge _ _ (List.mem_map_of_mem _ ht)
  rw [heq, nextTaskId_suffix] at h1
  omega

/-! ## Concrete fixtures for witnesses and counterexamples -/

/-- A store state whose caches are already seeded. -/
def sysW : Sys :=
  { contactsCache := some [cw], contactsDisk := some [cw]
    tasksCache := some [tw], tasksDisk := some [tw] }

def inpX : ContactCreateInput :=
  { firstName := "New", lastName := "Guy", email := "n@g.com" }

/-- The contact `createContact [] 9 inpX sysW` builds. -/
def cNew : Contact :=
  { id := "C00002", firstName := "New", lastName := "Guy", email := "n@g.com"
    phone := "", company := "", city := "", state := "", tags := []
    createdAt := 9, lastActivityAt := 9 }

/-! ## Claims about the mutations -/

/-- Claim C7: the id assigned by `createContact`/`createTask` is the
prefix (`C`/`T`) followed by the zero-padded successor of the maximum
numeric suffix among the current records (0 for an empty collection),
and it differs from every stored id. -/
theorem idAllocationFresh :
    (∀ (seed : List Contact) (now : Int) (inp : ContactCreateInput) (s : Sys) (c : Contact),
      (createContact seed now inp s).2 = .ok c →
        c.id = "C" ++ padZ 5
            (maxSuffix (((ensureContactsSeeded seed s).contactsCache.getD []).map (·.id)) + 1) ∧
        ∀ c' ∈ (ensureContactsSeeded seed s).contactsCache.getD [], c'.id ≠ c.id) ∧
    (∀ (gc mf : Bool) (seed : List Contact) (now : Int) (inp : TaskCreateInput) (s : Sys)
        (t : Task),
      (createTask gc mf seed now inp s).2 = .ok t →
        t.id = "T" ++ padZ 5
            (maxSuffix (((ensureTasksSeeded s).tasksCache.getD []).map (·.id)) + 1) ∧
        ∀ t' ∈ (ensureTasksSeeded s).tasksCache.getD [], t'.id ≠ t.id) := by
  constructor
  · intro seed now inp s c h
    simp only [createContact] at h
    split at h
    · simp at h
    · split at h
      · simp at h
      · simp only [Except.ok.injEq] at h
        subst h
        refine ⟨rfl, ?_⟩
        exact nextContactId_fresh _
  · intro gc mf seed now inp s t h
    have htasks := ensureContactsSeeded_tasks seed (ensureTasksSeeded s)
    simp only [createTask] at h
    split at h
    · simp at h
    · split at h
      · simp at h
      · split at h
        · simp at h
        · split at h
          · simp at h
          · simp only [Except.ok.injEq] at h
            subst h
            rw [htasks.1]
            refine ⟨rfl, ?_⟩
            have := nextTaskId_fresh
              ((ensureContactsSeeded seed (ensureTasksSeeded s)).tasksCache.getD [])
            rw [htasks.1] at this
            exact this

theorem idAllocationFresh_witness :
    cNew.id = "C" ++ padZ 5 (maxSuffix ([cw].map (·.id)) + 1) :=
  (idAllocationFresh.1 [] 9 inpX sysW cNew rfl).1

/-- Claim C5 could not be confirmed as stated: `createContact` stores
`[contact, ...cache]`, putting the new record at the FRONT. Concretely,
creating a contact over a one-element collection yields a cache whose
head is the new record, not `old ++ [new]`. -/
theorem createContactPrependsCex :
    (createContact [] 9 inpX sysW).2 = .ok cNew ∧
    (createContact [] 9 inpX sysW).1.contactsCache = some [cNew, cw] ∧
    [cNew, cw] ≠ [cw, cNew] :=
  ⟨rfl, rfl, by decide⟩

/-- Claim C5, amended: both creates validate required fields, assign the
fresh id, stamp both timestamps with the current time and persist the
full list; `createTask` appends to the end of the collection, but
`createContact` prepends (previous records keep their relative order
after the new one). -/
theorem createStampsAndStores :
    (∀ (seed : List Contact) (now : Int) (inp : ContactCreateInput) (s : Sys) (c : Contact),
      (createContact seed now inp s).2 = .ok c →
        (createContact seed now inp s).1.contactsCache
            = some (c :: (ensureContactsSeeded seed s).contactsCache.getD []) ∧
        (createContact seed now inp s).1.contactsDisk
            = some (c :: (ensureContactsSeeded seed s).contactsCache.getD []) ∧
        c.id = nextContactId ((ensureContactsSeeded seed s).contactsCache.getD []) ∧
        c.createdAt = now ∧ c.lastActivityAt = now ∧
        jsTrim inp.firstName ≠ "" ∧ jsTrim inp.lastName ≠ "" ∧ jsTrim inp.email ≠ "") ∧
    (∀ (gc mf : Bool) (seed : List Contact) (now : Int) (inp : TaskCreateInput) (s : Sys)
        (t : Task),
      (createTask gc mf seed now inp s).2 = .ok t →
        (createTask gc mf seed now inp s).1.tasksCache
            = some ((ensureTasksSeeded s).tasksCache.getD [] ++ [t]) ∧
        (createTask gc mf seed now inp s).1.tasksDisk
            = some ((ensureTasksSeeded s).tasksCache.getD [] ++ [t]) ∧
        t.id = nextTaskId ((ensureTasksSeeded s).tasksCache.getD []) ∧
        t.createdAt = now ∧ t.updatedAt = now ∧ jsTrim inp.title ≠ "") := by
  constructor
  · intro seed now inp s c h
    simp only [createContact] at h ⊢
    split at h
    · simp at h
    · split at h
      · simp at h
      · rename_i h1 h2
        simp only [Except.ok.injEq] at h
        subst h
        rw [if_neg h1, if_neg h2]
        obtain ⟨⟨hf, hl⟩, he⟩ :
            (¬ jsTrim inp.firstName = "" ∧ ¬ jsTrim inp.lastName = "")
              ∧ ¬ jsTrim inp.email = "" := by
          simpa [not_or] using h1
        exact ⟨rfl, rfl, rfl, rfl, rfl, hf, hl, he⟩
  · intro gc mf seed now inp s t h
    have htasks := ensureContactsSeeded_tasks seed (ensureTasksSeeded s)
    simp only [createTask] at h ⊢
    split at h
    · simp at h
    · split at h
      · simp at h
      · split at h
        · simp at h
        · split at h
          · simp at h
          · rename_i h1 h2 h3 h4
            simp only [Except.ok.injEq] at h
            subst h
            rw [if_neg h1, if_neg h2, if_neg h3, if_neg h4]
            rw [htasks.1]
            exact ⟨rfl, rfl, rfl, rfl, rfl, by simpa using h2⟩

theorem createStampsAndStores_witness :
    (createContact [] 9 inpX sysW).1.contactsCache = some (cNew :: [cw]) :=
  ((createStampsAndStores.1 [] 9 inpX sysW cNew rfl).1)

/-- Claim C6: `updateTask(id, {completed: true})` returns the stored task
with only `completed` and `updatedAt` changed; in general only fields
present in the payload are replaced, and a title that trims to the empty
string silently falls back to the previous title instead of raising a
validation error. -/
theorem updatePartialFields (s : Sys) (now : Int) (id : String) (u : TaskUpdateInput)
    (prev : Task)
    (hfind : ((ensureTasksSeeded s).tasksCache.getD []).find? (fun t => t.id == id)
        = some prev) :
    (updateTask false now id { completed := some true } s).2
        = .ok { prev with completed := true, updatedAt := now } ∧
    (updateTask false now id u s).2 = .ok (updFields now u prev) ∧
    (u.title = none → (updFields now u prev).title = prev.title) ∧
    (∀ str, u.title = some str → jsTrim str = "" → (updFields now u prev).title = prev.title) ∧
    (∀ str, u.title = some str → jsTrim str ≠ "" → (updFields now u prev).title = jsTrim str) ∧
    (u.notes = none → (updFields now u prev).notes = prev.notes) ∧
    (u.dueDate = none → (updFields now u prev).dueDate = prev.dueDate) ∧
    (u.completed = none → (updFields now u prev).completed = prev.completed) ∧
    (u.priority = none → (updFields now u prev).priority = prev.priority) ∧
    (updFields now u prev).id = prev.id ∧
    (updFields now u prev).contactId = prev.contactId ∧
    (updFields now u prev).createdAt = prev.createdAt ∧
    (updFields now u prev).updatedAt = now := by
  refine ⟨?_, ?_, ?_, ?_, ?_, ?_, ?_, ?_, ?_, rfl, rfl, rfl, rfl⟩
  · simp [updateTask, hfind, updFields]
  · simp [updateTask, hfind]
  · intro h; simp [updFields, h]
  · intro str h hemp; simp [updFields, h, hemp]
  · intro str h hemp; simp [updFields, h, hemp]
  · intro h; simp [updFields, h]
  · intro h; simp [updFields, h]
  · intro h; simp [updFields, h]
  · intro h; simp [updFields, h]

theorem updatePartialFields_witness :
    (updateTask false 7 "T00001" { completed := some true } sysW).2
      = .ok { tw with completed := true, updatedAt := 7 } :=
  (updatePartialFields sysW 7 "T00001" {} tw (by decide)).1

theorem string_length_pos (s : String) (h : s ≠ "") : 1 ≤ s.length := by
  rcases s with ⟨d⟩
  cases d with
  | nil => exact absurd rfl h
  | cons a t => simp [String.length]

/-- A 121-character title, used to exhibit the missing length check. -/
def longT : String := String.mk (List.replicate 121 'a')

/-- Claim C9 could not be confirmed as stated: `updateTask` never checks
the 120-character bound, so updating a stored (valid) task with a
121-character title stores that title. -/
theorem titleBoundsCex :
    (updateTask false 7 "T00001" { title := some longT } sysW).2
        = .ok { tw with title := longT, updatedAt := 7 } ∧
    120 < ({ tw with title := longT, updatedAt := 7 } : Task).title.length :=
  ⟨rfl, by decide⟩

/-- Claim C9, amended: `createTask` stores a trimmed title of length
1–120, and `updateTask` preserves non-emptiness of the trimmed title
(an empty-trim update falls back to the previous title); but `updateTask`
imposes no maximum, storing any non-empty trimmed title verbatim, so the
120-character upper bound is not preserved by updates. -/
theorem titleBounds :
    (∀ (gc mf : Bool) (seed : List Contact) (now : Int) (inp : TaskCreateInput) (s : Sys)
        (t : Task),
      (createTask gc mf seed now inp s).2 = .ok t →
        jsTrim t.title = t.title ∧ 1 ≤ (jsTrim t.title).length
          ∧ (jsTrim t.title).length ≤ 120) ∧
    (∀ (now : Int) (id : String) (u : TaskUpdateInput) (s : Sys) (prev next : Task),
      ((ensureTasksSeeded s).tasksCache.getD []).find? (fun t => t.id == id) = some prev →
      (updateTask false now id u s).2 = .ok next →
        (1 ≤ (jsTrim prev.title).length → 1 ≤ (jsTrim next.title).length) ∧
        (∀ str, u.title = some str → jsTrim str ≠ "" → next.title = jsTrim str)) := by
  constructor
  · intro gc mf seed now inp s t h
    simp only [createTask] at h
    split at h
    · simp at h
    · split at h
      · simp at h
      · split at h
        · simp at h
        · split at h
          · simp at h
          · rename_i h1 h2 h3 h4
            simp only [Except.ok.injEq] at h
            subst h
            have hne : jsTrim inp.title ≠ "" := by simpa using h2
            have hle : (jsTrim inp.title).length ≤ 120 := le_of_not_lt h3
            refine ⟨jsTrim_idem _, ?_, ?_⟩
            · show 1 ≤ (jsTrim (jsTrim inp.title)).length
              rw [jsTrim_idem]
              exact string_length_pos _ hne
            · show (jsTrim (jsTrim inp.title)).length ≤ 120
              rw [jsTrim_idem]
              exact hle
  · intro now id u s prev next hfind hok
    have hnext : next = updFields now u prev := by
      simp only [updateTask, Bool.false_eq_true, if_false, hfind] at hok
      simp only [Except.ok.injEq] at hok
      exact hok.symm
    subst hnext
    constructor
    · intro hprev
      rcases ht : u.title with _ | str
      · simpa [updFields, ht] using hprev
      · by_cases hemp : jsTrim str = ""
        · simpa [updFields, ht, hemp] using hprev
        · have : (updFields now u prev).title = jsTrim str := by
            simp [updFields, ht, hemp]
          rw [this, jsTrim_idem]
          exact string_length_pos _ hemp
    · intro str ht hemp
      simp [updFields, ht, hemp]

theorem titleBounds_witness :
    jsTrim ("Call" : String) = "Call" ∧ 1 ≤ (jsTrim ("Call" : String)).length
      ∧ (jsTrim ("Call" : String)).length ≤ 120 := by
  have h := titleBounds.1 false false [cw] 3
    { contactId := "C00001", title := "Call" } sysW
  have hres := h _ rfl
  simpa using hres

/-- Claim C4 could not be confirmed as stated: the transient roll in each
task write happens before the mutation, so a `TransientError` outcome
returns the store exactly as it was (here: identical to `sysW`), with
nothing applied. -/
theorem writeTransientCex :
    updateTask true 7 "T00001" {} sysW
        = (sysW, .error (.transient "simulate mutation failure")) ∧
    deleteTask true "T00001" sysW
        = (sysW, .error (.transient "simulate mutation failure")) ∧
    createTask false true [] 7 { contactId := "C00001", title := "Call" } sysW
        = (sysW, .error (.transient "simulate mutation failure")) :=
  ⟨rfl, rfl, rfl⟩

/-- Claim C4, amended: for the task write operations the injected
transient failure occurs BEFORE the real operation, so whenever
`createTask`, `updateTask` or `deleteTask` raises a `TransientError`, the
in-memory and persisted task collection is exactly what lazy seeding
alone produces — the mutation has never been applied. -/
theorem writeTransientNoMutation :
    (∀ (gc mf : Bool) (seed : List Contact) (now : Int) (inp : TaskCreateInput) (s : Sys)
        (m : String),
      (createTask gc mf seed now inp s).2 = .error (.transient m) →
        (createTask gc mf seed now inp s).1.tasksCache = (ensureTasksSeeded s).tasksCache ∧
        (createTask gc mf seed now inp s).1.tasksDisk = (ensureTasksSeeded s).tasksDisk) ∧
    (∀ (mf : Bool) (now : Int) (id : String) (u : TaskUpdateInput) (s : Sys) (m : String),
      (updateTask mf now id u s).2 = .error (.transient m) →
        (updateTask mf now id u s).1 = ensureTasksSeeded s) ∧
    (∀ (mf : Bool) (id : String) (s : Sys) (m : String),
      (deleteTask mf id s).2 = .error (.transient m) →
        (deleteTask mf id s).1 = ensureTasksSeeded s) := by
  refine ⟨?_, ?_, ?_⟩
  · intro gc mf seed now inp s m h
    have htasks := ensureContactsSeeded_tasks seed (ensureTasksSeeded s)
    simp only [createTask] at h ⊢
    split at h
    · rename_i h1
      rw [if_pos h1]
      exact ⟨htasks.1, htasks.2⟩
    · rename_i h1
      rw [if_neg h1]
      split at h
      · rename_i h2
        rw [if_pos h2]
        exact ⟨htasks.1, htasks.2⟩
      · rename_i h2
        rw [if_neg h2]
        split at h
        · rename_i h3
          rw [if_pos h3]
          exact ⟨htasks.1, htasks.2⟩
        · rename_i h3
          rw [if_neg h3]
          split at h
          · rename_i h4
            rw [if_pos h4]
            exact ⟨htasks.1, htasks.2⟩
          · simp at h
  · intro mf now id u s m h
    simp only [updateTask] at h ⊢
    split at h
    · rename_i h1
      rw [if_pos h1]
    · rename_i h1
      rw [if_neg h1]
      split at h
      · simp at h
      · simp at h
  · intro mf id s m h
    simp only [deleteTask] at h ⊢
    split at h
    · rename_i h1
      rw [if_pos h1]
    · rename_i h1
      rw [if_neg h1]
      split at h
      · simp at h
      · simp at h

theorem writeTransientNoMutation_witness :
    (updateTask true 7 "T00001" ({} : TaskUpdateInput) sysW).1 = ensureTasksSeeded sysW :=
  writeTransientNoMutation.2.1 true 7 "T00001" {} sysW "simulate mutation failure" rfl

/-- Does a store outcome carry a `NotFoundError`? -/
def isNotFoundErr {α : Type} (e : Except Err α) : Bool :=
  match e with
  | .error (.notFound _) => true
  | _ => false

/-- Claim C10: `createTask` converts every failure of the contact probe
(the probe's own transient roll included) into
`ValidationError: contact does not exist`, so it never reports
`NotFoundError`; with the probe failing (`gcFail = true`) it reports that
validation error whatever the inputs — even for an existing contact and a
valid title — leaving the task collection unchanged. -/
theorem createTaskMasksProbeFailures :
    (∀ (gc mf : Bool) (seed : List Contact) (now : Int) (inp : TaskCreateInput) (s : Sys),
      isNotFoundErr (createTask gc mf seed now inp s).2 = false) ∧
    (∀ (mf : Bool) (seed : List Contact) (now : Int) (inp : TaskCreateInput) (s : Sys),
      (createTask true mf seed now inp s).2 = .error (.validation "contact does not exist") ∧
      (createTask true mf seed now inp s).1.tasksCache = (ensureTasksSeeded s).tasksCache ∧
      (createTask true mf seed now inp s).1.tasksDisk = (ensureTasksSeeded s).tasksDisk) := by
  constructor
  · intro gc mf seed now inp s
    simp only [createTask]
    split
    · rfl
    · split
      · rfl
      · split
        · rfl
        · split
          · rfl
          · rfl
  · intro mf seed now inp s
    have htasks := ensureContactsSeeded_tasks seed (ensureTasksSeeded s)
    refine ⟨?_, ?_, ?_⟩
    · simp [createTask]
    · simp [createTask, htasks.1]
    · simp [createTask, htasks.2]

/-- Removing the first contact with a given id removes the only one, when
ids are pairwise distinct. -/
theorem find?_eraseP_id (id : String) : ∀ (l : List Contact),
    l.Pairwise (fun a b => a.id ≠ b.id) →
    (l.eraseP (fun c => c.id == id)).find? (fun c => c.id == id) = none
  | [], _ => rfl
  | c :: t, hp => by
    have hdist : ∀ b ∈ t, c.id ≠ b.id := (List.pairwise_cons.mp hp).1
    have ht : t.Pairwise (fun a b => a.id ≠ b.id) := (List.pairwise_cons.mp hp).2
    by_cases hc : (c.id == id) = true
    · simp only [List.eraseP_cons, hc, cond_true]
      apply List.find?_eq_none.mpr
      intro x hx
      have hcid : c.id = id := by simpa using hc
      have hx' : c.id ≠ x.id := hdist x hx
      simp only [beq_iff_eq]
      intro hxid
      exact hx' (hcid.trans hxid.symm)
    · have hc' : (c.id == id) = false := by simpa using hc
      simp only [List.eraseP_cons, hc', cond_false, List.find?_cons, hc']
      exact find?_eraseP_id id t ht

/-- If nothing matches the filter, the pipeline returns an empty page. -/
theorem listTasksPure_data_nil (p : TQuery) (l : List Task)
    (h : ∀ t ∈ l, taskMatches p t = false) : (listTasksPure l p).data = [] := by
  have hfil : l.filter (taskMatches p) = [] := by
    rw [List.filter_eq_nil_iff]
    intro t ht
    simp [h t ht]
  simp [listTasksPure, hfil, jsSortBy]

/-- A store state whose task cache is still unseeded (`null`). -/
def sysN : Sys :=
  { contactsCache := some [cw], contactsDisk := some [cw]
    tasksCache := none, tasksDisk := some [tw] }

/-- The `data` list of a list outcome (`[]` for an error). -/
def dataOf (e : Except Err (ListResult Task)) : List Task :=
  match e with
  | .ok r => r.data
  | .error _ => []

/-- Claim C3 could not be confirmed as stated: when the task store's
in-memory cache is already seeded, `deleteContact` only rewrites the task
FILE; the cache keeps the deleted contact's tasks and a subsequent
`listTasks({contactId})` still returns them. Concretely: the persisted
list is filtered (disk becomes `[]`) but `listTasks` returns `[tw]`. -/
theorem deleteCascadeCex :
    (deleteContact [] "C00001" sysW).2 = .ok true ∧
    (deleteContact [] "C00001" sysW).1.tasksDisk = some [] ∧
    dataOf (listTasks false { contactId := some "C00001" }
        (deleteContact [] "C00001" sysW).1).2 = [tw] ∧
    ([tw] : List Task) ≠ [] :=
  ⟨rfl, rfl, rfl, by decide⟩

/-- Claim C3, amended: deleting a contact removes it (a subsequent
`getContact` fails with NotFound), and filters every task with that
`contactId` out of the PERSISTED task collection; a subsequent
`listTasks({contactId})` returns empty data only if the task store's
in-memory cache is unseeded at that point (so that it loads the filtered
file); an already-seeded cache is left stale. -/
theorem deleteContactCascade (seed : List Contact) (id : String) (s : Sys)
    (hne : id ≠ "")
    (huniq : ((ensureContactsSeeded seed s).contactsCache.getD []).Pairwise
        (fun a b => a.id ≠ b.id))
    (hok : (deleteContact seed id s).2 = .ok true) :
    (getContact false seed id (deleteContact seed id s).1).2
        = .error (.notFound "contact not found") ∧
    (∀ t ∈ (deleteContact seed id s).1.tasksDisk.getD [], t.contactId ≠ id) ∧
    ((deleteContact seed id s).1.tasksCache = none →
      ∀ (p : TQuery) (r : ListResult Task), p.contactId = some id →
        (listTasks false p (deleteContact seed id s).1).2 = .ok r → r.data = []) := by
  simp only [deleteContact] at hok ⊢
  split at hok
  case isFalse => simp at hok
  case isTrue hany =>
  rw [if_pos hany]
  refine ⟨?_, ?_, ?_⟩
  · simp only [getContact]
    rw [ensureContactsSeeded_of_some seed _ _ rfl]
    dsimp only
    simp only [Option.getD_some]
    rw [find?_eraseP_id id _ huniq]
    rfl
  · intro t ht
    simp only [Option.getD_some, List.mem_filter] at ht
    simpa using ht.2
  · intro hcache p r hcid hlist
    simp only [listTasks, ensureTasksSeeded] at hlist
    rw [hcache] at hlist
    simp only [Bool.false_eq_true, if_false, Option.getD_some, Except.ok.injEq] at hlist
    subst hlist
    apply listTasksPure_data_nil
    intro t ht
    rcases List.mem_filter.mp ht with ⟨_, htid⟩
    have htid' : t.contactId ≠ id := by simpa using htid
    simp [taskMatches, hcid, hne, htid']

theorem deleteContactCascade_witness :
    (getContact false [] "C00001" (deleteContact [] "C00001" sysN).1).2
        = .error (.notFound "contact not found") :=
  (deleteContactCascade [] "C00001" sysN (by decide) (by decide) rfl).1

end ContactTask
